import Mathlib

/-!
# ICOMarketplace — shallow embedding and verification

A shallow embedding of the `ICOMarketplace` Solidity contract
(`src/unnamed/part_000`, pragma ^0.8.26) and proofs about its operations.

Modelling conventions:
* Addresses and uint256 values are `Nat`; uint256 overflow is explicit via
  `UINT_SUCC = 2 ^ 256`.  Solidity ≥ 0.8 arithmetic is checked: an overflowing
  multiplication reverts, which we model as the `arithmeticOverflow` error.
* The mutable ledger is a `World` record: the contract's storage
  (`tokenDetails` mapping, `allSupportedTokens` array, `owner`), the native
  currency balances, and the balance tables of the external ERC20 assets.
* The external ERC20 collaborator uses standard semantics: `transfer` succeeds
  iff the sender's balance suffices, debiting then crediting; `name`/`symbol`
  are read from immutable per-asset tables in the `World`.
* A reverting operation is an `Except.error`: the caller's state is unchanged
  (EVM atomicity).  `applyBuy`/`applyWithdraw` realise the revert semantics by
  returning the pre-state on error.
-/

namespace ICOMarket

/-- `2 ^ 256`, the first value outside uint256 range. -/
def UINT_SUCC : Nat := 2 ^ 256

/-- The `TokenDetails` struct of the contract. -/
structure TokenDetails where
  token : Nat
  supported : Bool
  price : Nat
  creator : Nat
  name : String
  symbol : String
deriving DecidableEq, Repr

/-- Solidity mapping default value: the all-zero struct. -/
def defaultDetails : TokenDetails :=
  { token := 0, supported := false, price := 0, creator := 0, name := "", symbol := "" }

/-- The error taxonomy of the spec (§7).  `insufficientFunds` models the
EVM-level rejection of a call whose `msg.value` exceeds the sender's balance. -/
inductive MarketError where
  | notSupported
  | unauthorized
  | invalidAmount
  | arithmeticOverflow
  | incorrectPayment
  | paymentForwardingFailed
  | transferFailed
  | insufficientBalance
  | insufficientFunds
deriving DecidableEq, Repr

/-- The whole mutable ledger: contract storage plus the balance tables of the
native currency and of every external ERC20 asset. -/
structure World where
  /-- the marketplace contract's own address -/
  self : Nat
  /-- `mapping(address => TokenDetails) public tokenDetails` -/
  tokenDetails : Nat → TokenDetails
  /-- `address[] public allSupportedTokens` -/
  allSupportedTokens : List Nat
  /-- `address public owner` -/
  owner : Nat
  /-- native currency balance of every address -/
  ethBalance : Nat → Nat
  /-- `tokenBalance t h`: balance of holder `h` in ERC20 asset `t` -/
  tokenBalance : Nat → Nat → Nat
  /-- `IERC20(t).name()` (immutable per asset) -/
  assetName : Nat → String
  /-- `IERC20(t).symbol()` (immutable per asset) -/
  assetSymbol : Nat → String

/-- Pointwise update of a one-key balance table. -/
def setEth (f : Nat → Nat) (a v : Nat) : Nat → Nat :=
  fun x => if x = a then v else f x

/-- Pointwise update of a (token, holder) balance table. -/
def setBal (f : Nat → Nat → Nat) (t0 h0 v : Nat) : Nat → Nat → Nat :=
  fun t h => if t = t0 ∧ h = h0 then v else f t h

/-- A native-currency value transfer (`call{value: v}` / `msg.value` debit):
succeeds iff the source balance suffices, debiting then crediting. -/
def ethSend (w : World) (src dst amount : Nat) : Option World :=
  if amount ≤ w.ethBalance src then
    let e1 := setEth w.ethBalance src (w.ethBalance src - amount)
    let e2 := setEth e1 dst (e1 dst + amount)
    some { w with ethBalance := e2 }
  else none

/-- `IERC20.transfer` with standard ERC20 semantics: succeeds iff the sender's
balance suffices, debiting the sender then crediting the recipient. -/
def erc20Transfer (w : World) (token sender recipient amount : Nat) : Option World :=
  if amount ≤ w.tokenBalance token sender then
    let b1 := setBal w.tokenBalance token sender (w.tokenBalance token sender - amount)
    let b2 := setBal b1 token recipient (b1 token recipient + amount)
    some { w with tokenBalance := b2 }
  else none

/-- `createICOSale(_token, _price)` called by `sender`: reads the asset's name
and symbol, overwrites the listing, and pushes `_token` onto
`allSupportedTokens` unconditionally (no uniqueness check). -/
def createICOSale (w : World) (sender token price : Nat) : World :=
  { w with
    tokenDetails := fun a =>
      if a = token then
        { token := token, supported := true, price := price, creator := sender,
          name := w.assetName token, symbol := w.assetSymbol token }
      else w.tokenDetails a,
    allSupportedTokens := w.allSupportedTokens ++ [token] }

/-- `multiply(x, y)`: `require(y == 0 || (z = x * y) / y == x)`.  Under
Solidity ≥ 0.8 the product `x * y` itself is overflow-checked and reverts on
wrap, so the guarded region is `x * y < 2^256`; both the checked-arithmetic
panic and a failing `require` are the `arithmeticOverflow` revert. -/
def multiply (x y : Nat) : Except MarketError Nat :=
  if x * y < UINT_SUCC then
    if y = 0 ∨ x * y / y = x then .ok (x * y) else .error .arithmeticOverflow
  else .error .arithmeticOverflow

/-- `buyToken(_token, _amount)` called by `sender` with `msg.value = msgValue`.
Steps, in source order: EVM value debit, `supportedToken` modifier,
`_amount > 0`, overflow-checked `totalCost`, exact-payment check, payment
forwarding to the creator, then `token.transfer(msg.sender, _amount * 10**18)`
(the scaling product is itself checked arithmetic under ^0.8). -/
def buyToken (w : World) (sender msgValue token amount : Nat) : Except MarketError World :=
  match ethSend w sender w.self msgValue with
  | none => .error .insufficientFunds
  | some w1 =>
    if (w1.tokenDetails token).supported = true then
      if 0 < amount then
        match multiply (w1.tokenDetails token).price amount with
        | .error e => .error e
        | .ok totalCost =>
          if msgValue = totalCost then
            match ethSend w1 w1.self (w1.tokenDetails token).creator msgValue with
            | none => .error .paymentForwardingFailed
            | some w2 =>
              if amount * 10 ^ 18 < UINT_SUCC then
                match erc20Transfer w2 token w2.self sender (amount * 10 ^ 18) with
                | none => .error .transferFailed
                | some w3 => .ok w3
              else .error .arithmeticOverflow
          else .error .incorrectPayment
      else .error .invalidAmount
    else .error .notSupported

/-- `widthdrawToken(_token, _amount)` called by `sender` (source spelling kept).
Modifier order is `onlyCreator` first, then `supportedToken`. -/
def widthdrawToken (w : World) (sender token amount : Nat) : Except MarketError World :=
  if sender = (w.tokenDetails token).creator then
    if (w.tokenDetails token).supported = true then
      if 0 < amount then
        if amount ≤ w.tokenBalance token w.self then
          match erc20Transfer w token w.self sender amount with
          | none => .error .transferFailed
          | some w' => .ok w'
        else .error .insufficientBalance
      else .error .invalidAmount
    else .error .notSupported
  else .error .unauthorized

/-- Did the operation commit? -/
def isSuccess : Except MarketError World → Bool
  | .ok _ => true
  | .error _ => false

/-- Revert semantics of `buyToken`: the post-state of the transaction, the
pre-state again when the operation reverted. -/
def applyBuy (w : World) (sender msgValue token amount : Nat) : World :=
  match buyToken w sender msgValue token amount with
  | .ok w' => w'
  | .error _ => w

/-- Revert semantics of `widthdrawToken`. -/
def applyWithdraw (w : World) (sender token amount : Nat) : World :=
  match widthdrawToken w sender token amount with
  | .ok w' => w'
  | .error _ => w

/-- First pass of `getTokenCreatedBy`: count the index entries whose listing
names the given creator. -/
def countMatches (d : Nat → TokenDetails) (c : Nat) : List Nat → Nat
  | [] => 0
  | a :: rest => (if (d a).creator = c then 1 else 0) + countMatches d c rest

/-- Second pass of `getTokenCreatedBy`: walk the index again and fill the
pre-sized result array (`tokens[index] = ...; index++`).  `List.set` is the
in-range indexed assignment. -/
def fillLoop (d : Nat → TokenDetails) (c : Nat) :
    List Nat → List TokenDetails → Nat → List TokenDetails
  | [], arr, _ => arr
  | a :: rest, arr, idx =>
    if (d a).creator = c then fillLoop d c rest (arr.set idx (d a)) (idx + 1)
    else fillLoop d c rest arr idx

/-- `getTokenCreatedBy(_creator)`: two-pass filtered enumeration — count to
size a zero-initialised result, then fill it in index order. -/
def getTokenCreatedBy (w : World) (c : Nat) : List TokenDetails :=
  fillLoop w.tokenDetails c w.allSupportedTokens
    (List.replicate (countMatches w.tokenDetails c w.allSupportedTokens) defaultDetails) 0

/-- Modelled from the spec (§4.1, §9): the single-pass reformulation of
`listingsByCreator` — filter the index sequence by creator, in order, and read
each listing once. -/
def listingsByCreatorSpec (w : World) (c : Nat) : List TokenDetails :=
  (w.allSupportedTokens.filter (fun a => (w.tokenDetails a).creator == c)).map
    (fun a => w.tokenDetails a)

/-- The three state-mutating operations, for reachability statements. -/
inductive Op where
  | register (sender token price : Nat)
  | buy (sender msgValue token amount : Nat)
  | withdraw (sender token amount : Nat)
deriving DecidableEq, Repr

/-- One committed transaction (reverting operations leave the state as-is). -/
def stepOp (w : World) : Op → World
  | .register s t p => createICOSale w s t p
  | .buy s v t a => applyBuy w s v t a
  | .withdraw s t a => applyWithdraw w s t a

/-- Run a sequence of transactions. -/
def runOps (w : World) (ops : List Op) : World :=
  ops.foldl stepOp w

/-- Does the operation (re-)register the given token? -/
def registersToken (t : Nat) : Op → Bool
  | .register _ token _ => token == t
  | _ => false

/-! ## Concrete worlds for evaluation -/

/-- A marketplace (address 1) with token 10 listed at price 100 by creator 2;
buyer 3 holds 1000 wei; the marketplace holds `10 * 10 ^ 18` units of token 10. -/
def W0 : World :=
  { self := 1
    tokenDetails := fun a =>
      if a = 10 then
        { token := 10, supported := true, price := 100, creator := 2,
          name := "Tok", symbol := "TOK" }
      else defaultDetails
    allSupportedTokens := [10]
    owner := 5
    ethBalance := fun a => if a = 3 then 1000 else 0
    tokenBalance := fun t h => if t = 10 ∧ h = 1 then 10 * 10 ^ 18 else 0
    assetName := fun _ => "Tok"
    assetSymbol := fun _ => "TOK" }

/-- A marketplace with token 10 listed at the huge price `2 ^ 255`. -/
def Wbig : World :=
  { self := 1
    tokenDetails := fun a =>
      if a = 10 then
        { token := 10, supported := true, price := 2 ^ 255, creator := 2,
          name := "Big", symbol := "BIG" }
      else defaultDetails
    allSupportedTokens := [10]
    owner := 5
    ethBalance := fun _ => 0
    tokenBalance := fun _ _ => 0
    assetName := fun _ => "Big"
    assetSymbol := fun _ => "BIG" }

/-- An empty marketplace: nothing listed, all balances zero. -/
def Wbase : World :=
  { self := 1
    tokenDetails := fun _ => defaultDetails
    allSupportedTokens := []
    owner := 5
    ethBalance := fun _ => 0
    tokenBalance := fun _ _ => 0
    assetName := fun _ => "A"
    assetSymbol := fun _ => "AS" }

/-! ## Frame lemmas: which fields each primitive can touch -/

/-- A native-currency transfer changes only `ethBalance`. -/
lemma ethSend_frame {w w' : World} {s d v : Nat} (h : ethSend w s d v = some w') :
    w'.self = w.self ∧ w'.tokenDetails = w.tokenDetails ∧
    w'.allSupportedTokens = w.allSupportedTokens ∧ w'.tokenBalance = w.tokenBalance := by
  unfold ethSend at h
  split at h
  · simp only [Option.some.injEq] at h
    subst h
    exact ⟨rfl, rfl, rfl, rfl⟩
  · cases h

/-- An ERC20 transfer changes only `tokenBalance`. -/
lemma erc20Transfer_frame {w w' : World} {t s r v : Nat}
    (h : erc20Transfer w t s r v = some w') :
    w'.self = w.self ∧ w'.tokenDetails = w.tokenDetails ∧
    w'.allSupportedTokens = w.allSupportedTokens ∧ w'.ethBalance = w.ethBalance := by
  unfold erc20Transfer at h
  split at h
  · simp only [Option.some.injEq] at h
    subst h
    exact ⟨rfl, rfl, rfl, rfl⟩
  · cases h

/-- A committed `buyToken` leaves the whole registry untouched. -/
lemma buyToken_ok_frame {w w' : World} {s v t a : Nat}
    (h : buyToken w s v t a = .ok w') :
    w'.tokenDetails = w.tokenDetails ∧ w'.allSupportedTokens = w.allSupportedTokens := by
  unfold buyToken at h
  split at h
  · cases h
  next w1 heq1 =>
    obtain ⟨-, hd1, ha1, -⟩ := ethSend_frame heq1
    split at h
    · split at h
      · split at h
        · cases h
        next tc heq2 =>
          split at h
          · split at h
            · cases h
            next w2 heq3 =>
              obtain ⟨-, hd2, ha2, -⟩ := ethSend_frame heq3
              split at h
              · split at h
                · cases h
                next w3 heq4 =>
                  obtain ⟨-, hd3, ha3, -⟩ := erc20Transfer_frame heq4
                  cases h
                  exact ⟨hd3.trans (hd2.trans hd1), ha3.trans (ha2.trans ha1)⟩
              · cases h
          · cases h
      · cases h
    · cases h

/-- A committed `widthdrawToken` leaves the whole registry untouched. -/
lemma widthdrawToken_ok_frame {w w' : World} {s t a : Nat}
    (h : widthdrawToken w s t a = .ok w') :
    w'.tokenDetails = w.tokenDetails ∧ w'.allSupportedTokens = w.allSupportedTokens := by
  unfold widthdrawToken at h
  split at h
  · split at h
    · split at h
      · split at h
        · split at h
          · cases h
          next w2 heq =>
            obtain ⟨-, hd, ha, -⟩ := erc20Transfer_frame heq
            cases h
            exact ⟨hd, ha⟩
        · cases h
      · cases h
    · cases h
  · cases h

/-- Revert-aware version for `buyToken`. -/
lemma applyBuy_frame (w : World) (s v t a : Nat) :
    (applyBuy w s v t a).tokenDetails = w.tokenDetails ∧
    (applyBuy w s v t a).allSupportedTokens = w.allSupportedTokens := by
  unfold applyBuy
  split
  next w' hb => exact buyToken_ok_frame hb
  next e hb => exact ⟨rfl, rfl⟩

/-- Revert-aware version for `widthdrawToken`. -/
lemma applyWithdraw_frame (w : World) (s t a : Nat) :
    (applyWithdraw w s t a).tokenDetails = w.tokenDetails ∧
    (applyWithdraw w s t a).allSupportedTokens = w.allSupportedTokens := by
  unfold applyWithdraw
  split
  next w' hb => exact widthdrawToken_ok_frame hb
  next e hb => exact ⟨rfl, rfl⟩

/-- A transaction that does not re-register `t` leaves `t`'s listing as it was. -/
lemma stepOp_preserves_listing (w : World) (t : Nat) (op : Op)
    (h : registersToken t op = false) :
    (stepOp w op).tokenDetails t = w.tokenDetails t := by
  cases op with
  | register s token p =>
    simp only [registersToken, beq_eq_false_iff_ne] at h
    simp [stepOp, createICOSale, (Ne.symm h)]
  | buy s v token a =>
    exact congrFun (applyBuy_frame w s v token a).1 t
  | withdraw s token a =>
    exact congrFun (applyWithdraw_frame w s token a).1 t

/-- Any transaction sequence free of re-registrations of `t` leaves `t`'s
listing as it was. -/
lemma runOps_preserves_listing (t : Nat) :
    ∀ (ops : List Op) (w : World), (∀ op ∈ ops, registersToken t op = false) →
      (runOps w ops).tokenDetails t = w.tokenDetails t := by
  intro ops
  induction ops with
  | nil => intro w _; rfl
  | cons op rest ih =>
    intro w h
    have h1 := h op (List.mem_cons_self op rest)
    have h2 : ∀ o ∈ rest, registersToken t o = false :=
      fun o ho => h o (List.mem_cons_of_mem _ ho)
    show (runOps (stepOp w op) rest).tokenDetails t = w.tokenDetails t
    rw [ih (stepOp w op) h2, stepOp_preserves_listing w t op h1]

/-! ## Claim theorems -/

/-- C2: `widthdrawToken` called by anyone other than the listing's stored
creator fails with `Unauthorized` (the `onlyCreator` modifier, checked first),
and by revert semantics every balance and all registry state is unchanged. -/
theorem withdraw_non_creator_unauthorized (w : World) (sender token amount : Nat)
    (h : sender ≠ (w.tokenDetails token).creator) :
    widthdrawToken w sender token amount = .error .unauthorized ∧
    applyWithdraw w sender token amount = w := by
  have hrun : widthdrawToken w sender token amount = .error .unauthorized := by
    unfold widthdrawToken
    rw [if_neg h]
  refine ⟨hrun, ?_⟩
  unfold applyWithdraw
  rw [hrun]

theorem withdraw_non_creator_unauthorized_witness :
    widthdrawToken W0 7 10 5 = .error .unauthorized ∧ applyWithdraw W0 7 10 5 = W0 :=
  withdraw_non_creator_unauthorized W0 7 10 5 (by decide)

/-- C10: for a token that was never registered (its mapping entry is the
all-zero default, so `creator = 0` and `supported = false`), `widthdrawToken`
fails with `Unauthorized` for every caller other than the zero identity,
because `onlyCreator` runs before `supportedToken`; the `NotSupported` branch
is reached only by the zero identity. -/
theorem withdraw_unregistered_unauthorized (w : World) (sender token amount : Nat)
    (hcr : (w.tokenDetails token).creator = 0)
    (hsup : (w.tokenDetails token).supported = false) :
    (sender ≠ 0 → widthdrawToken w sender token amount = .error .unauthorized) ∧
    (sender = 0 → widthdrawToken w sender token amount = .error .notSupported) := by
  constructor
  · intro hs
    unfold widthdrawToken
    rw [hcr, if_neg hs]
  · intro hs
    unfold widthdrawToken
    rw [hcr, hs, if_pos rfl, hsup]
    simp

theorem withdraw_unregistered_unauthorized_witness :
    widthdrawToken W0 5 77 1 = .error .unauthorized ∧
    widthdrawToken W0 0 77 1 = .error .notSupported :=
  ⟨(withdraw_unregistered_unauthorized W0 5 77 1 (by decide) (by decide)).1 (by decide),
   (withdraw_unregistered_unauthorized W0 0 77 1 (by decide) (by decide)).2 rfl⟩

/-- C5: re-registering an already-indexed token overwrites its price, creator
and metadata in place, and appends a second index entry, so the token occurs
at least twice in `allSupportedTokens`. -/
theorem reregister_overwrites_and_duplicates (w : World) (c' token p' : Nat)
    (hmem : token ∈ w.allSupportedTokens) :
    ((createICOSale w c' token p').tokenDetails token).price = p' ∧
    ((createICOSale w c' token p').tokenDetails token).creator = c' ∧
    ((createICOSale w c' token p').tokenDetails token).name = w.assetName token ∧
    ((createICOSale w c' token p').tokenDetails token).symbol = w.assetSymbol token ∧
    2 ≤ (createICOSale w c' token p').allSupportedTokens.count token := by
  have hcount : 0 < w.allSupportedTokens.count token := List.count_pos_iff.mpr hmem
  refine ⟨by simp [createICOSale], by simp [createICOSale], by simp [createICOSale],
    by simp [createICOSale], ?_⟩
  simp only [createICOSale, List.count_append, List.count_singleton, List.count_cons,
    List.count_nil, beq_self_eq_true, if_true]
  omega

theorem reregister_overwrites_and_duplicates_witness :
    ((createICOSale W0 3 10 7).tokenDetails 10).price = 7 ∧
    ((createICOSale W0 3 10 7).tokenDetails 10).creator = 3 ∧
    ((createICOSale W0 3 10 7).tokenDetails 10).name = W0.assetName 10 ∧
    ((createICOSale W0 3 10 7).tokenDetails 10).symbol = W0.assetSymbol 10 ∧
    2 ≤ (createICOSale W0 3 10 7).allSupportedTokens.count 10 :=
  reregister_overwrites_and_duplicates W0 3 10 7 (by decide)

/-- C6 (counterexample): re-registration is a reachable operation that changes
a listing's stored price and creator away from the values set at creation:
token 10 is created at price 100 by creator 2, and a second `createICOSale`
leaves it at price 7 under creator 3. -/
theorem listing_price_creator_can_change :
    ((createICOSale (createICOSale Wbase 2 10 100) 3 10 7).tokenDetails 10).price ≠
      ((createICOSale Wbase 2 10 100).tokenDetails 10).price ∧
    ((createICOSale (createICOSale Wbase 2 10 100) 3 10 7).tokenDetails 10).creator ≠
      ((createICOSale Wbase 2 10 100).tokenDetails 10).creator := by
  decide

/-- C6 (amended): a listing's price and creator can change only through
re-registration of that same token — every operation sequence containing no
registration of `t` leaves `listing(t).price` and `listing(t).creator`
exactly as they were. -/
theorem listing_immutable_without_reregistration (w : World) (t : Nat) (ops : List Op)
    (h : ∀ op ∈ ops, registersToken t op = false) :
    ((runOps w ops).tokenDetails t).price = (w.tokenDetails t).price ∧
    ((runOps w ops).tokenDetails t).creator = (w.tokenDetails t).creator := by
  have key := runOps_preserves_listing t ops w h
  exact ⟨by rw [key], by rw [key]⟩

/-- A register / buy / withdraw sequence that never re-registers token 99. -/
def opsNo99 : List Op :=
  [.register 2 10 100, .buy 3 300 10 3, .withdraw 2 10 5]

theorem listing_immutable_without_reregistration_witness :
    ((runOps W0 opsNo99).tokenDetails 99).price = (W0.tokenDetails 99).price ∧
    ((runOps W0 opsNo99).tokenDetails 99).creator = (W0.tokenDetails 99).creator :=
  listing_immutable_without_reregistration W0 99 opsNo99 (by decide)

/-- C7: `buyToken` and `widthdrawToken` — committed or reverted — never write
the token registry: the whole `tokenDetails` mapping and the
`allSupportedTokens` index sequence are unchanged by both. -/
theorem buy_withdraw_registry_frame (w : World) (s v t a s' t' a' : Nat) :
    (applyBuy w s v t a).tokenDetails = w.tokenDetails ∧
    (applyBuy w s v t a).allSupportedTokens = w.allSupportedTokens ∧
    (applyWithdraw w s' t' a').tokenDetails = w.tokenDetails ∧
    (applyWithdraw w s' t' a').allSupportedTokens = w.allSupportedTokens :=
  ⟨(applyBuy_frame w s v t a).1, (applyBuy_frame w s v t a).2,
   (applyWithdraw_frame w s' t' a').1, (applyWithdraw_frame w s' t' a').2⟩

/-- C3: with the payment value not exactly `price * amount` (and the cost
product in range, so the overflow guard does not fire first), `buyToken` fails
with `IncorrectPayment`, and by revert semantics nothing changes. -/
theorem buy_incorrect_payment_fails (w : World) (sender msgValue token amount : Nat)
    (hfunds : msgValue ≤ w.ethBalance sender)
    (hsup : (w.tokenDetails token).supported = true)
    (hamt : 0 < amount)
    (hmul : (w.tokenDetails token).price * amount < UINT_SUCC)
    (hneq : msgValue ≠ (w.tokenDetails token).price * amount) :
    buyToken w sender msgValue token amount = .error .incorrectPayment ∧
    applyBuy w sender msgValue token amount = w := by
  have hdiv : (w.tokenDetails token).price * amount / amount = (w.tokenDetails token).price :=
    Nat.mul_div_cancel _ hamt
  have hrun : buyToken w sender msgValue token amount = .error .incorrectPayment := by
    simp only [buyToken, ethSend, multiply]
    rw [if_pos hfunds]
    simp [hsup, hamt, hmul, hdiv, hneq]
  refine ⟨hrun, ?_⟩
  unfold applyBuy
  rw [hrun]

theorem buy_incorrect_payment_fails_witness :
    buyToken W0 3 299 10 3 = .error .incorrectPayment ∧ applyBuy W0 3 299 10 3 = W0 :=
  buy_incorrect_payment_fails W0 3 299 10 3 (by decide) (by decide) (by decide)
    (by decide) (by decide)

/-- C4: when `price * amount` does not fit in a uint256, `buyToken` fails with
`ArithmeticOverflow` (the guarded multiplication in `multiply`), and by revert
semantics nothing changes. -/
theorem buy_overflow_fails (w : World) (sender msgValue token amount : Nat)
    (hfunds : msgValue ≤ w.ethBalance sender)
    (hsup : (w.tokenDetails token).supported = true)
    (hamt : 0 < amount)
    (hmul : UINT_SUCC ≤ (w.tokenDetails token).price * amount) :
    buyToken w sender msgValue token amount = .error .arithmeticOverflow ∧
    applyBuy w sender msgValue token amount = w := by
  have hrun : buyToken w sender msgValue token amount = .error .arithmeticOverflow := by
    simp only [buyToken, ethSend, multiply]
    rw [if_pos hfunds]
    simp [hsup, hamt, Nat.not_lt.mpr hmul]
  refine ⟨hrun, ?_⟩
  unfold applyBuy
  rw [hrun]

theorem buy_overflow_fails_witness :
    buyToken Wbig 3 0 10 4 = .error .arithmeticOverflow ∧ applyBuy Wbig 3 0 10 4 = Wbig :=
  buy_overflow_fails Wbig 3 0 10 4 (by decide) (by decide) (by decide) (by decide)

/-- C8: a creator-called withdrawal of a positive amount within the held
balance commits, and moves exactly `amount` raw token units — no `10 ^ 18`
scaling — from the marketplace to the caller. -/
theorem withdraw_creator_raw_units (w : World) (sender token amount : Nat)
    (hcr : sender = (w.tokenDetails token).creator)
    (hsup : (w.tokenDetails token).supported = true)
    (hamt : 0 < amount)
    (hbal : amount ≤ w.tokenBalance token w.self)
    (hss : sender ≠ w.self) :
    isSuccess (widthdrawToken w sender token amount) = true ∧
    (applyWithdraw w sender token amount).tokenBalance token sender
      = w.tokenBalance token sender + amount ∧
    (applyWithdraw w sender token amount).tokenBalance token w.self
      = w.tokenBalance token w.self - amount := by
  have hss' : w.self ≠ sender := Ne.symm hss
  simp only [widthdrawToken, applyWithdraw, isSuccess, erc20Transfer, setBal]
  rw [if_pos hcr, hsup]
  simp [setBal, hamt, hbal, hss, hss']

theorem withdraw_creator_raw_units_witness :
    isSuccess (widthdrawToken W0 2 10 5) = true ∧
    (applyWithdraw W0 2 10 5).tokenBalance 10 2 = W0.tokenBalance 10 2 + 5 ∧
    (applyWithdraw W0 2 10 5).tokenBalance 10 W0.self = W0.tokenBalance 10 W0.self - 5 :=
  withdraw_creator_raw_units W0 2 10 5 (by decide) (by decide) (by decide)
    (by decide) (by decide)

/-- C1: an exact payment of `price * amount` for a positive amount of a
supported token commits (given in-range products, a sufficiently funded buyer,
a sufficiently stocked marketplace, and pairwise-distinct buyer, creator and
marketplace addresses): the creator's native balance grows by exactly the paid
value, and the buyer's token balance grows by `amount * 10 ^ 18` — the fixed
base-unit scaling applied on purchase. -/
theorem buy_exact_payment_succeeds (w : World) (sender msgValue token amount : Nat)
    (hsup : (w.tokenDetails token).supported = true)
    (hamt : 0 < amount)
    (hval : msgValue = (w.tokenDetails token).price * amount)
    (hmul : (w.tokenDetails token).price * amount < UINT_SUCC)
    (hscale : amount * 10 ^ 18 < UINT_SUCC)
    (hfunds : msgValue ≤ w.ethBalance sender)
    (hheld : amount * 10 ^ 18 ≤ w.tokenBalance token w.self)
    (hbc : sender ≠ (w.tokenDetails token).creator)
    (hcs : (w.tokenDetails token).creator ≠ w.self)
    (hbs : sender ≠ w.self) :
    isSuccess (buyToken w sender msgValue token amount) = true ∧
    (applyBuy w sender msgValue token amount).ethBalance (w.tokenDetails token).creator
      = w.ethBalance (w.tokenDetails token).creator + msgValue ∧
    (applyBuy w sender msgValue token amount).tokenBalance token sender
      = w.tokenBalance token sender + amount * 10 ^ 18 := by
  have hdiv : (w.tokenDetails token).price * amount / amount = (w.tokenDetails token).price :=
    Nat.mul_div_cancel _ hamt
  have hsb : w.self ≠ sender := Ne.symm hbs
  have hcb : (w.tokenDetails token).creator ≠ sender := Ne.symm hbc
  have hsc : w.self ≠ (w.tokenDetails token).creator := Ne.symm hcs
  have hscale' : amount * 1000000000000000000 < UINT_SUCC := by simpa using hscale
  have hheld' : amount * 1000000000000000000 ≤ w.tokenBalance token w.self := by
    simpa using hheld
  simp only [buyToken, applyBuy, isSuccess, multiply, ethSend, erc20Transfer, setEth, setBal]
  rw [if_pos hfunds]
  simp [setEth, setBal, hsup, hamt, hmul, hdiv, hval, hscale', hheld', Nat.le_add_left,
    hbc, hcs, hbs, hsb, hcb, hsc]

theorem buy_exact_payment_succeeds_witness :
    isSuccess (buyToken W0 3 300 10 3) = true ∧
    (applyBuy W0 3 300 10 3).ethBalance (W0.tokenDetails 10).creator
      = W0.ethBalance (W0.tokenDetails 10).creator + 300 ∧
    (applyBuy W0 3 300 10 3).tokenBalance 10 3 = W0.tokenBalance 10 3 + 3 * 10 ^ 18 :=
  buy_exact_payment_succeeds W0 3 300 10 3 (by decide) (by decide) (by decide) (by decide)
    (by decide) (by decide) (by decide) (by decide) (by decide) (by decide)

/-- Indexed assignment at the seam of a prefix hits the head of the suffix. -/
lemma set_append_cons (pre : List TokenDetails) (x v : TokenDetails) (t : List TokenDetails) :
    (pre ++ x :: t).set pre.length v = pre ++ v :: t := by
  induction pre with
  | nil => rfl
  | cons p ps ih =>
    show p :: (ps ++ x :: t).set ps.length v = p :: (ps ++ v :: t)
    rw [ih]

/-- The fill pass writes the filtered listings, in index order, into exactly
the slots the counting pass reserved. -/
lemma fillLoop_eq_filter_map (d : Nat → TokenDetails) (c : Nat) :
    ∀ (l : List Nat) (pre : List TokenDetails),
      fillLoop d c l (pre ++ List.replicate (countMatches d c l) defaultDetails) pre.length =
        pre ++ (l.filter (fun a => (d a).creator == c)).map (fun a => d a) := by
  intro l
  induction l with
  | nil => intro pre; simp [fillLoop, countMatches]
  | cons a rest ih =>
    intro pre
    by_cases h : (d a).creator = c
    · have hcnt : countMatches d c (a :: rest) = 1 + countMatches d c rest := by
        simp [countMatches, h]
      have hrep : List.replicate (1 + countMatches d c rest) defaultDetails
          = defaultDetails :: List.replicate (countMatches d c rest) defaultDetails := by
        rw [Nat.add_comm]
        rfl
      rw [hcnt, hrep]
      show fillLoop d c (a :: rest)
          (pre ++ defaultDetails :: List.replicate (countMatches d c rest) defaultDetails)
          pre.length = _
      unfold fillLoop
      rw [if_pos h, set_append_cons]
      have hsplit : pre ++ d a :: List.replicate (countMatches d c rest) defaultDetails
          = (pre ++ [d a]) ++ List.replicate (countMatches d c rest) defaultDetails := by
        simp
      have hlen : pre.length + 1 = (pre ++ [d a]).length := by simp
      rw [hsplit, hlen, ih (pre ++ [d a])]
      simp [h]
    · have hcnt : countMatches d c (a :: rest) = countMatches d c rest := by
        simp [countMatches, h]
      rw [hcnt]
      unfold fillLoop
      rw [if_neg h, ih pre]
      simp [h]

/-- C9: the two-pass filtered enumeration of `getTokenCreatedBy` (count the
matches, allocate, fill by index) returns exactly the single-pass
filter-in-index-order of the spec, on every state and for every creator. -/
theorem two_pass_eq_single_pass (w : World) (c : Nat) :
    getTokenCreatedBy w c = listingsByCreatorSpec w c := by
  have h := fillLoop_eq_filter_map w.tokenDetails c w.allSupportedTokens []
  simpa [getTokenCreatedBy, listingsByCreatorSpec] using h

end ICOMarket
